import Mathlib

/-!
Shallow embedding of the validator-registry and instance/projection engine of
the `pydantic` fork under verification.

Sources embedded:
* `src/pydantic/_internal/valdation_functions.py` — `RootValidator`,
  `FieldValidator`, `ValidationFunctions` (`inherit`, `extract_validator`,
  `get_field_validators`, `check_for_unused`).
* `src/pydantic/main.py` — `BaseModel.construct`, `BaseModel.__setattr__`,
  `BaseModel._iter`, `BaseModel._calculate_keys`, `BaseModel._get_value`,
  `BaseModel.dict`.

Python `dict`s are modelled as insertion-ordered association lists with the
assignment/lookup semantics of `dict.__setitem__` / `dict.get`; Python `set`s
as lists with membership-based insertion.  Mutation is modelled by explicit
state passing.
-/

/-- `d.get k` of a Python dict: first (unique) binding of `k`, if any. -/
def dget {α : Type} (d : List (String × α)) (k : String) : Option α :=
  match d with
  | [] => none
  | (k', v) :: rest => if k' = k then some v else dget rest k

/-- `d[k] = v` of a Python dict: update the binding in place if the key is
present, otherwise append the new binding (insertion order preserved). -/
def dset {α : Type} (d : List (String × α)) (k : String) (v : α) :
    List (String × α) :=
  match d with
  | [] => [(k, v)]
  | (k', v') :: rest => if k' = k then (k, v) :: rest else (k', v') :: dset rest k v

/-- `d.update(m)` of a Python dict: assign every binding of `m`, in order. -/
def dupdate {α : Type} (d m : List (String × α)) : List (String × α) :=
  m.foldl (fun acc kv => dset acc kv.1 kv.2) d

/-- `s.add(x)` of a Python set (membership is all that matters). -/
def sadd (s : List String) (x : String) : List String :=
  if x ∈ s then s else x :: s

theorem dget_dset_self {α : Type} (d : List (String × α)) (k : String) (v : α) :
    dget (dset d k v) k = some v := by
  induction d with
  | nil => simp [dget, dset]
  | cons kv rest ih =>
    obtain ⟨k', v'⟩ := kv
    by_cases h : k' = k <;> simp [dget, dset, h, ih]

theorem dget_dset_ne {α : Type} (d : List (String × α)) (k k' : String) (v : α)
    (h : k ≠ k') : dget (dset d k v) k' = dget d k' := by
  induction d with
  | nil => simp [dget, dset, h]
  | cons kv rest ih =>
    obtain ⟨k0, v0⟩ := kv
    by_cases h0 : k0 = k
    · subst h0
      simp [dget, dset, h]
    · simp only [dset, if_neg h0, dget]
      by_cases h1 : k0 = k' <;> simp [h1, ih]

/-! ## Validator registry (`valdation_functions.py`) -/

/-- `mode: Literal['before', 'after', 'wrap', 'plain']`. -/
inductive VMode where
  | before | after | wrap | plain
deriving DecidableEq, Repr

/-- `RootValidator`: the callable is identified by its `__name__` (the only
use the registry makes of the function object is `function.__name__`). -/
structure RootValidator where
  function : String
  mode : VMode
deriving DecidableEq, Repr

/-- `FieldValidator(RootValidator)`: adds `check_fields` and `sub_path`. -/
structure FieldValidator extends RootValidator where
  check_fields : Bool
  sub_path : Option (List (String ⊕ Int))
deriving DecidableEq, Repr

/-- State of a `ValidationFunctions` registry. -/
structure ValidationFunctions where
  field_validators : List (String × List FieldValidator)
  all_fields_validators : List FieldValidator
  root_validators : List RootValidator
  used_validators : List String
deriving DecidableEq, Repr

/-- `ValidationFunctions.__init__`: everything empty. -/
def ValidationFunctions.init : ValidationFunctions := ⟨[], [], [], []⟩

/-- One iteration of the `for k, v in parent._field_validators.items()` loop of
`inherit`: reads `existing`, performs the (immediately overwritten) merge
assignment when `existing` is truthy, then unconditionally assigns `v[:]`. -/
def inheritStep (d : List (String × List FieldValidator))
    (kv : String × List FieldValidator) : List (String × List FieldValidator) :=
  let existing := dget d kv.1
  let d1 := match existing with
    | some l => if l.isEmpty then d else dset d kv.1 (l ++ kv.2)
    | none => d
  dset d1 kv.1 kv.2

/-- `ValidationFunctions.inherit(parent)`: merge a parent registry into this
one.  Field-scoped entries: each parent key's entry overwrites the local one
(the `existing + v` assignment is immediately shadowed by `v[:]`); all-fields
and root sequences: parent's copy prepended. -/
def ValidationFunctions.inherit (self parent : ValidationFunctions) :
    ValidationFunctions :=
  { self with
    field_validators := parent.field_validators.foldl inheritStep self.field_validators
    all_fields_validators := parent.all_fields_validators ++ self.all_fields_validators
    root_validators := parent.root_validators ++ self.root_validators }

/-- A value passed to `extract_validator`, carrying the optional
`__field_validator__` and `__root_validator__` attributes. -/
structure TaggedValue where
  field_validator_tag : Option (List String × FieldValidator)
  root_validator_tag : Option RootValidator
deriving DecidableEq, Repr

/-- Body of the `for field_name in fields` loop of `extract_validator`:
append to the existing (truthy) list in place, else bind a fresh singleton. -/
def extractFieldStep (validator : FieldValidator)
    (d : List (String × List FieldValidator)) (field_name : String) :
    List (String × List FieldValidator) :=
  match dget d field_name with
  | some l => if l.isEmpty then dset d field_name [validator]
              else dset d field_name (l ++ [validator])
  | none => dset d field_name [validator]

/-- `ValidationFunctions.extract_validator(value)`.  Note the source re-tests
`f_validator` (necessarily `None` at that point) where it reads
`r_validator`, so the root branch never appends and falls through to
`return False`. -/
def ValidationFunctions.extract_validator (self : ValidationFunctions)
    (value : TaggedValue) : ValidationFunctions × Bool :=
  match value.field_validator_tag with
  | some (fields, validator) =>
    ({ self with
       field_validators := fields.foldl (extractFieldStep validator) self.field_validators },
     true)
  | none =>
    -- r_validator := getattr(value, ROOT_VALIDATOR_TAG, None); if f_validator: (False here)
    (self, false)

/-- `ValidationFunctions.get_field_validators(name)`: marks `name` used and
returns the field's list with the all-fields list appended.  `validators +=
self._all_fields_validators` extends the stored list object in place when
`name` is bound in the dict, so the registry state is mutated as well. -/
def ValidationFunctions.get_field_validators (self : ValidationFunctions)
    (name : String) : List FieldValidator × ValidationFunctions :=
  let used := sadd self.used_validators name
  match dget self.field_validators name with
  | some l =>
    let newl := l ++ self.all_fields_validators
    (newl, { self with used_validators := used
                       field_validators := dset self.field_validators name newl })
  | none =>
    (self.all_fields_validators, { self with used_validators := used })

/-- The names collected by `check_for_unused`: for every field-scoped key not
in `_used_validators`, the `__name__` of each entry with `check_fields`. -/
def ValidationFunctions.unused_validator_names (self : ValidationFunctions) :
    List String :=
  (self.field_validators.filter (fun kv => kv.1 ∉ self.used_validators)).flatMap
    (fun kv => (kv.2.filter (·.check_fields)).map (·.function))

/-- `ValidationFunctions.check_for_unused()`: `some names` models raising
`ConfigError` whose message names exactly `names`; `none` models a clean
return.  (The source builds a Python `set`, which only deduplicates.) -/
def ValidationFunctions.check_for_unused (self : ValidationFunctions) :
    Option (List String) :=
  if self.unused_validator_names.isEmpty then none
  else some self.unused_validator_names

/-! ## Registry lemmas -/

/-- Field-scoped validators that a sequence of `extract_validator` calls
registers for field `f`, in call order (one copy per occurrence of `f` in a
call's target tuple). -/
def ownFieldRegs (regs : List TaggedValue) (f : String) : List FieldValidator :=
  regs.flatMap (fun v => match v.field_validator_tag with
    | some (fs, val) => (fs.filter (· = f)).map (fun _ => val)
    | none => [])

/-- Apply a sequence of `extract_validator` calls, keeping only the state. -/
def applyRegs (regs : List TaggedValue) (s : ValidationFunctions) :
    ValidationFunctions :=
  regs.foldl (fun s v => (s.extract_validator v).1) s

/-- A child registry as schema assembly produces it: a fresh registry,
`inherit(parent)` first, then the child's own `extract_validator` calls. -/
def mergedRegistry (parent : ValidationFunctions) (regs : List TaggedValue) :
    ValidationFunctions :=
  applyRegs regs (ValidationFunctions.init.inherit parent)

theorem dget_eq_none_iff {α : Type} (d : List (String × α)) (k : String) :
    dget d k = none ↔ k ∉ d.map Prod.fst := by
  induction d with
  | nil => simp [dget]
  | cons kv rest ih =>
    obtain ⟨k', v⟩ := kv
    by_cases h : k' = k
    · subst h
      simp [dget]
    · simp only [dget, if_neg h, List.map_cons, List.mem_cons]
      rw [ih]
      constructor
      · rintro hn (rfl | hm)
        · exact h rfl
        · exact hn hm
      · intro hn hm
        exact hn (Or.inr hm)

theorem dget_inheritStep (d : List (String × List FieldValidator))
    (kv : String × List FieldValidator) (k : String) :
    dget (inheritStep d kv) k = if kv.1 = k then some kv.2 else dget d k := by
  unfold inheritStep
  by_cases h : kv.1 = k
  · simp only [if_pos h]
    rw [← h]
    exact dget_dset_self _ _ _
  · simp only [if_neg h]
    rw [dget_dset_ne _ _ _ _ h]
    cases hd : dget d kv.1 with
    | none => rfl
    | some l =>
      by_cases he : l.isEmpty <;> simp [he, dget_dset_ne _ _ _ _ h]

theorem dget_inheritFold_none (entries : List (String × List FieldValidator))
    (acc : List (String × List FieldValidator)) (k : String) :
    dget entries k = none → dget (entries.foldl inheritStep acc) k = dget acc k := by
  induction entries generalizing acc with
  | nil => intro; rfl
  | cons kv rest ih =>
    obtain ⟨k0, v0⟩ := kv
    intro h
    simp only [dget] at h
    by_cases h0 : k0 = k
    · simp [h0] at h
    · simp only [if_neg h0] at h
      simp only [List.foldl_cons]
      rw [ih _ h, dget_inheritStep]
      simp [h0]

theorem dget_inheritFold_mem (entries : List (String × List FieldValidator))
    (acc : List (String × List FieldValidator))
    (k : String) (v : List FieldValidator) :
    (entries.map Prod.fst).Nodup → dget entries k = some v →
      dget (entries.foldl inheritStep acc) k = some v := by
  induction entries generalizing acc with
  | nil => intro _ h; simp [dget] at h
  | cons kv rest ih =>
    obtain ⟨k0, v0⟩ := kv
    intro hnd h
    simp only [List.map_cons, List.nodup_cons] at hnd
    simp only [dget] at h
    simp only [List.foldl_cons]
    by_cases h0 : k0 = k
    · simp only [if_pos h0] at h
      have hrest : dget rest k = none := by
        rw [dget_eq_none_iff]
        intro hm
        exact hnd.1 (h0 ▸ hm)
      rw [dget_inheritFold_none rest _ k hrest, dget_inheritStep]
      simpa [h0] using h
    · simp only [if_neg h0] at h
      exact ih _ hnd.2 h

theorem dget_inherit_init (parent : ValidationFunctions)
    (hnd : (parent.field_validators.map Prod.fst).Nodup) (k : String) :
    dget (ValidationFunctions.init.inherit parent).field_validators k
      = dget parent.field_validators k := by
  show dget (parent.field_validators.foldl inheritStep []) k = _
  cases h : dget parent.field_validators k with
  | none => rw [dget_inheritFold_none _ _ _ h]; rfl
  | some v => exact dget_inheritFold_mem _ _ _ _ hnd h

theorem getD_extractFieldStep (val : FieldValidator)
    (d : List (String × List FieldValidator)) (fname k : String) :
    (dget (extractFieldStep val d fname) k).getD []
      = if fname = k then (dget d k).getD [] ++ [val] else (dget d k).getD [] := by
  unfold extractFieldStep
  by_cases h : fname = k
  · subst h
    cases hd : dget d fname with
    | none => simp [dget_dset_self, hd]
    | some l =>
      by_cases he : l.isEmpty
      · rw [List.isEmpty_iff] at he
        subst he
        simp [hd, dget_dset_self]
      · simp [he, hd, dget_dset_self]
  · cases hd : dget d fname with
    | none => simp [h, dget_dset_ne _ _ _ _ h]
    | some l =>
      by_cases he : l.isEmpty <;> simp [he, h, dget_dset_ne _ _ _ _ h]

theorem getD_extractFold (fs : List String) (val : FieldValidator)
    (d : List (String × List FieldValidator)) (k : String) :
    (dget (fs.foldl (extractFieldStep val) d) k).getD []
      = (dget d k).getD [] ++ (fs.filter (· = k)).map (fun _ => val) := by
  induction fs generalizing d with
  | nil => simp
  | cons f0 rest ih =>
    simp only [List.foldl_cons]
    rw [ih, getD_extractFieldStep]
    by_cases h : f0 = k
    · simp [h, List.filter_cons, List.append_assoc]
    · simp [h, List.filter_cons]

theorem getD_applyRegs (regs : List TaggedValue) (s : ValidationFunctions)
    (k : String) :
    (dget (applyRegs regs s).field_validators k).getD []
      = (dget s.field_validators k).getD [] ++ ownFieldRegs regs k := by
  induction regs generalizing s with
  | nil => simp [applyRegs, ownFieldRegs]
  | cons r rest ih =>
    simp only [applyRegs, List.foldl_cons] at ih ⊢
    rw [ih]
    cases hr : r.field_validator_tag with
    | none =>
      simp [ValidationFunctions.extract_validator, hr, ownFieldRegs]
    | some fv =>
      obtain ⟨fs, val⟩ := fv
      simp only [ValidationFunctions.extract_validator, hr]
      rw [getD_extractFold]
      simp [ownFieldRegs, hr, List.append_assoc]

theorem applyRegs_all_fields (regs : List TaggedValue) (s : ValidationFunctions) :
    (applyRegs regs s).all_fields_validators = s.all_fields_validators := by
  induction regs generalizing s with
  | nil => rfl
  | cons r rest ih =>
    simp only [applyRegs, List.foldl_cons] at ih ⊢
    rw [ih]
    cases hr : r.field_validator_tag <;>
      simp [ValidationFunctions.extract_validator, hr]

theorem applyRegs_root (regs : List TaggedValue) (s : ValidationFunctions) :
    (applyRegs regs s).root_validators = s.root_validators := by
  induction regs generalizing s with
  | nil => rfl
  | cons r rest ih =>
    simp only [applyRegs, List.foldl_cons] at ih ⊢
    rw [ih]
    cases hr : r.field_validator_tag <;>
      simp [ValidationFunctions.extract_validator, hr]

theorem get_field_validators_fst (s : ValidationFunctions) (f : String) :
    (s.get_field_validators f).1
      = (dget s.field_validators f).getD [] ++ s.all_fields_validators := by
  unfold ValidationFunctions.get_field_validators
  cases h : dget s.field_validators f <;> simp [h]

/-! ## Claim theorems for the validator registry -/

/-- Sample validators and registries used by concrete witnesses. -/
def fvA : FieldValidator := ⟨⟨"va", VMode.before⟩, true, none⟩

def fvAll : FieldValidator := ⟨⟨"vall", VMode.after⟩, true, none⟩

def fvC : FieldValidator := ⟨⟨"vc", VMode.after⟩, true, none⟩

def sampleParent : ValidationFunctions :=
  ⟨[("x", [fvA])], [fvAll], [⟨"rootP", VMode.after⟩], []⟩

def sampleRegs : List TaggedValue := [⟨some (["x"], fvC), none⟩]

/-- **C1**: when a child registry calls `inherit(parent)` before any of its own
registrations, resolving a field returns all of the parent's field-scoped
validators for that field before all of the child's own, and the merged
all-fields and root sequences place the parent's entries before the child's. -/
theorem validator_inheritance_order (P D : ValidationFunctions)
    (regs : List TaggedValue) (f : String)
    (hwf : (P.field_validators.map Prod.fst).Nodup) :
    ((mergedRegistry P regs).get_field_validators f).1
      = (dget P.field_validators f).getD [] ++ ownFieldRegs regs f
          ++ P.all_fields_validators
    ∧ (D.inherit P).all_fields_validators
        = P.all_fields_validators ++ D.all_fields_validators
    ∧ (D.inherit P).root_validators = P.root_validators ++ D.root_validators := by
  refine ⟨?_, rfl, rfl⟩
  rw [get_field_validators_fst]
  have hall : (mergedRegistry P regs).all_fields_validators
      = P.all_fields_validators := by
    rw [mergedRegistry, applyRegs_all_fields]
    show P.all_fields_validators ++ [] = _
    simp
  rw [hall, mergedRegistry, getD_applyRegs]
  have hbase : dget (ValidationFunctions.init.inherit P).field_validators f
      = dget P.field_validators f := dget_inherit_init P hwf f
  rw [hbase]

/-- Witness for C1 at a concrete parent, child registration list and field. -/
theorem validator_inheritance_order_witness :
    (sampleParent.field_validators.map Prod.fst).Nodup
    ∧ (((mergedRegistry sampleParent sampleRegs).get_field_validators "x").1
        = (dget sampleParent.field_validators "x").getD []
            ++ ownFieldRegs sampleRegs "x" ++ sampleParent.all_fields_validators
      ∧ (ValidationFunctions.init.inherit sampleParent).all_fields_validators
          = sampleParent.all_fields_validators
              ++ ValidationFunctions.init.all_fields_validators
      ∧ (ValidationFunctions.init.inherit sampleParent).root_validators
          = sampleParent.root_validators
              ++ ValidationFunctions.init.root_validators) :=
  ⟨by decide,
   validator_inheritance_order sampleParent ValidationFunctions.init sampleRegs "x"
     (by decide)⟩

/-- The registry used to exhibit the C2 mutation bug: one field-scoped
validator bound to `"x"` and one all-fields validator. -/
def c2Registry : ValidationFunctions := ⟨[("x", [fvA])], [fvAll], [], []⟩

/-- **C2** fails on the code: `validators += self._all_fields_validators`
in `get_field_validators` extends the stored per-field list object in place,
so the call mutates the stored sequences and two successive
`get_field_validators("x")` calls return different sequences. -/
theorem get_field_validators_mutation_bug :
    ((c2Registry.get_field_validators "x").2.get_field_validators "x").1
        ≠ (c2Registry.get_field_validators "x").1
    ∧ (c2Registry.get_field_validators "x").2.field_validators
        ≠ c2Registry.field_validators
    ∧ (c2Registry.get_field_validators "x").1 = [fvA, fvAll]
    ∧ ((c2Registry.get_field_validators "x").2.get_field_validators "x").1
        = [fvA, fvAll, fvAll] := by
  refine ⟨?_, ?_, rfl, rfl⟩ <;> decide

/-- A function value tagged only as a root validator (no field-validator tag). -/
def rootOnlyTagged : TaggedValue := ⟨none, some ⟨"rv", VMode.after⟩⟩

/-- **C3** fails on the code: for a value tagged as a root validator and not as
a field validator, `extract_validator` re-tests `f_validator` (which is `None`)
instead of `r_validator`, so it returns `False` and leaves `root_validators`
unchanged instead of appending and returning `True`. -/
theorem root_only_extract_returns_false :
    (ValidationFunctions.init.extract_validator rootOnlyTagged).2 = false
    ∧ (ValidationFunctions.init.extract_validator rootOnlyTagged).1.root_validators
        = ValidationFunctions.init.root_validators := by
  exact ⟨rfl, rfl⟩

theorem mem_unused_validator_names (S : ValidationFunctions) (n : String) :
    n ∈ S.unused_validator_names
      ↔ ∃ kv ∈ S.field_validators, kv.1 ∉ S.used_validators
          ∧ ∃ v ∈ kv.2, v.check_fields = true ∧ v.function = n := by
  simp only [ValidationFunctions.unused_validator_names, List.mem_flatMap,
    List.mem_filter, List.mem_map, decide_eq_true_eq]
  constructor
  · rintro ⟨kv, ⟨hkv, hu⟩, v, ⟨hv, hcf⟩, hfn⟩
    exact ⟨kv, hkv, hu, v, hv, hcf, hfn⟩
  · rintro ⟨kv, hkv, hu, v, hv, hcf, hfn⟩
    exact ⟨kv, ⟨hkv, hu⟩, v, ⟨hv, hcf⟩, hfn⟩

/-- **C6**: `check_for_unused` raises a configuration error iff some field
name carrying field-scoped validator entries was never resolved and at least
one of its entries has `check_fields` enabled; the error names the function
name of every such entry, and every name it reports traces back to such an
enabled field-scoped entry (so entries with `check_fields=False` and root
validators never cause it to raise). -/
theorem check_for_unused_spec (S : ValidationFunctions) :
    (S.check_for_unused ≠ none
      ↔ ∃ kv ∈ S.field_validators, kv.1 ∉ S.used_validators
          ∧ ∃ v ∈ kv.2, v.check_fields = true)
    ∧ (∀ names, S.check_for_unused = some names →
        ∀ kv ∈ S.field_validators, kv.1 ∉ S.used_validators →
          ∀ v ∈ kv.2, v.check_fields = true → v.function ∈ names)
    ∧ (∀ names, S.check_for_unused = some names →
        ∀ n ∈ names, ∃ kv ∈ S.field_validators, kv.1 ∉ S.used_validators
          ∧ ∃ v ∈ kv.2, v.check_fields = true ∧ v.function = n) := by
  have hnames : ∀ names, S.check_for_unused = some names →
      names = S.unused_validator_names := by
    intro names h
    unfold ValidationFunctions.check_for_unused at h
    by_cases he : S.unused_validator_names.isEmpty
    · simp [he] at h
    · simp only [he, if_neg, Bool.false_eq_true, not_false_eq_true] at h
      exact (Option.some_inj.mp h).symm
  refine ⟨?_, ?_, ?_⟩
  · constructor
    · intro h
      have hne : ¬S.unused_validator_names.isEmpty := by
        intro he
        exact h (by unfold ValidationFunctions.check_for_unused; simp [he])
      rw [List.isEmpty_iff] at hne
      obtain ⟨n, hn⟩ := List.exists_mem_of_ne_nil _ hne
      obtain ⟨kv, hkv, hu, v, hv, hcf, _⟩ := (mem_unused_validator_names S n).mp hn
      exact ⟨kv, hkv, hu, v, hv, hcf⟩
    · rintro ⟨kv, hkv, hu, v, hv, hcf⟩
      have hn : v.function ∈ S.unused_validator_names :=
        (mem_unused_validator_names S v.function).mpr ⟨kv, hkv, hu, v, hv, hcf, rfl⟩
      have hne : ¬S.unused_validator_names.isEmpty := by
        rw [List.isEmpty_iff]
        intro he
        rw [he] at hn
        exact List.not_mem_nil _ hn
      unfold ValidationFunctions.check_for_unused
      simp [hne]
  · intro names h kv hkv hu v hv hcf
    rw [hnames names h]
    exact (mem_unused_validator_names S v.function).mpr ⟨kv, hkv, hu, v, hv, hcf, rfl⟩
  · intro names h n hn
    rw [hnames names h] at hn
    exact (mem_unused_validator_names S n).mp hn

/-- The registry used by the C6 witness: field `"gone"` has an enabled
validator entry and was never resolved. -/
def c6Registry : ValidationFunctions := ⟨[("gone", [fvA])], [], [], []⟩

/-- Witness for C6 at a concrete registry: the check raises and the raised
message names the offending entry's function name. -/
theorem check_for_unused_spec_witness :
    c6Registry.check_for_unused = some ["va"] ∧ fvA.function ∈ ["va"] :=
  ⟨by decide,
   (check_for_unused_spec c6Registry).2.1 ["va"] (by decide) ("gone", [fvA])
     (by decide) (by decide) fvA (by decide) (by decide)⟩

/-! ## Values and instances (`main.py`)

The value universe: primitives, `None`, lists, dicts, and nested model
instances (a nested instance carries its `__dict__` and `__fields_set__`).
Enum values are outside this universe (no claim involves the
`use_enum_values` branch of `_get_value`). -/

inductive Value where
  | vint (i : Int)
  | vstr (s : String)
  | vbool (b : Bool)
  | vnone
  | vlist (vs : List Value)
  | vdict (kvs : List (String × Value))
  | vmodel (values : List (String × Value)) (fields_set : List String)

/-- `v is None`. -/
def Value.isNone : Value → Bool
  | .vnone => true
  | _ => false

mutual
/-- Structural equality on values, modelling Python `==` on plain data
(used by the `exclude_defaults` comparison `default == v`). -/
def Value.beq : Value → Value → Bool
  | .vint a, .vint b => a == b
  | .vstr a, .vstr b => a == b
  | .vbool a, .vbool b => a == b
  | .vnone, .vnone => true
  | .vlist l1, .vlist l2 => beqValueList l1 l2
  | .vdict d1, .vdict d2 => beqValueEntries d1 d2
  | .vmodel v1 f1, .vmodel v2 f2 => beqValueEntries v1 v2 && f1 == f2
  | _, _ => false

def beqValueList : List Value → List Value → Bool
  | [], [] => true
  | a :: r1, b :: r2 => Value.beq a b && beqValueList r1 r2
  | _, _ => false

def beqValueEntries : List (String × Value) → List (String × Value) → Bool
  | [], [] => true
  | (k1, a) :: r1, (k2, b) :: r2 => k1 == k2 && Value.beq a b && beqValueEntries r1 r2
  | _, _ => false
end

/-- Per-field static metadata (`FieldInfo` / `ModelField`): the pieces of the
descriptor that `main.py` reads (`alias`, `alt_alias`, `required`, `default`
via `get_default()` — default-factory results are abstracted into the stored
`default` value —, `final`, `field_info.allow_mutation`).  The field `alias'`
models the source's `alias` attribute (`alias` is reserved in Lean). -/
structure FieldInfo where
  alias' : String
  alt_alias : Bool
  required : Bool
  default : Value
  final : Bool
  allow_mutation : Bool

/-- Instance state: `__dict__` and `__fields_set__` (private attributes live
outside both and are not modelled). -/
structure Instance where
  values : List (String × Value)
  fields_set : List String

/-- `ROOT_KEY` (from `utils`, outside the provided sources): the custom-root
field sentinel checked by `_get_value` on a nested model's dict. -/
def ROOT_KEY : String := "__root__"

/-- The boolean the `exclude_defaults` test of `_iter` would compute,
`not getattr(model_field, 'required', True) and getattr(model_field,
'default', _missing) == v`, if the non-short-circuited case completed.  An
undeclared key gives `model_field = None`, whose `required` getattr-default
`True` short-circuits the test, as does a required field.  In the provided
source the non-short-circuited case never completes: `getattr` evaluates its
fallback argument eagerly and `_missing` is an unbound name (`main.py:643`,
defined nowhere and not imported), so the test raises `NameError` for every
declared non-required field — see `defaultSkipExc` for the faithful
semantics and claim C4.  This total idealisation is used only inside the
total loop `iterEntries`, which agrees with the faithful `iterEntriesExc`
whenever `exclude_defaults=false` (`iterEntriesExc_no_exclude_defaults`),
i.e. whenever the branch below is dead. -/
def defaultSkip (fields : List (String × FieldInfo)) (k : String) (v : Value) :
    Bool :=
  match dget fields k with
  | some mf => !mf.required && Value.beq mf.default v
  | none => false

/-- `allowed_keys is not None and field_key not in allowed_keys`. -/
def allowedSkip (allowed_keys : Option (List String)) (k : String) : Bool :=
  match allowed_keys with
  | some ks => decide (k ∉ ks)
  | none => false

/-! `BaseModel._get_value` and the nested `v.dict(...)` recursion.  Every
claim under verification passes `include=None, exclude=None`; the
include/exclude narrowing lives in `ValueItems` (`utils`, outside the
provided sources), and with both `None` the source's `value_include` /
`value_exclude` are `None` and no dict/sequence entry is filtered, which is
what this embedding computes.  A nested model's `v.dict(...)` call runs the
nested instance's `_iter` with `to_dict=True` against that instance's own
class field table; the claims only ever inspect top-level keys and unfiltered
plain values, so the nested table is embedded as the empty table (under which
`exclude_defaults` and `by_alias` lookups find no descriptor, as for a model
with no declared fields). -/
mutual
def get_value (to_dict by_alias exclude_unset exclude_defaults exclude_none : Bool) :
    Value → Value
  | .vmodel values fields_set =>
    if to_dict then
      let v_dict := nested_iter by_alias exclude_unset exclude_defaults
        exclude_none fields_set values
      match dget v_dict ROOT_KEY with
      | some r => r
      | none => .vdict v_dict
    else
      -- `v.copy(include=None, exclude=None)`: values and fields_set unchanged
      .vmodel values fields_set
  | .vdict kvs =>
    .vdict (get_value_entries to_dict by_alias exclude_unset exclude_defaults
      exclude_none kvs)
  | .vlist vs =>
    .vlist (get_value_list to_dict by_alias exclude_unset exclude_defaults
      exclude_none vs)
  | .vint i => .vint i
  | .vstr s => .vstr s
  | .vbool b => .vbool b
  | .vnone => .vnone

def get_value_list (to_dict by_alias exclude_unset exclude_defaults exclude_none : Bool) :
    List Value → List Value
  | [] => []
  | v :: vs =>
    get_value to_dict by_alias exclude_unset exclude_defaults exclude_none v
      :: get_value_list to_dict by_alias exclude_unset exclude_defaults exclude_none vs

def get_value_entries (to_dict by_alias exclude_unset exclude_defaults exclude_none : Bool) :
    List (String × Value) → List (String × Value)
  | [] => []
  | (k, v) :: kvs =>
    (k, get_value to_dict by_alias exclude_unset exclude_defaults exclude_none v)
      :: get_value_entries to_dict by_alias exclude_unset exclude_defaults exclude_none kvs

def nested_iter (by_alias exclude_unset exclude_defaults exclude_none : Bool)
    (fields_set : List String) : List (String × Value) → List (String × Value)
  | [] => []
  | (field_key, v) :: rest =>
    let restres := nested_iter by_alias exclude_unset exclude_defaults
      exclude_none fields_set rest
    if (exclude_unset && decide (field_key ∉ fields_set))
        || (exclude_none && v.isNone) then restres
    else
      (field_key, get_value true by_alias exclude_unset exclude_defaults
        exclude_none v) :: restres
end

/-- `BaseModel._calculate_keys`.  `include` is consulted through its key set
(`keys &= include.keys()`, guarded by `is not None`); `update` and `exclude`
are guarded by truthiness (an empty dict is falsy).  An `exclude` entry
carries the boolean `ValueItems.is_true(v)` of its value (modelled from the
spec: a field mapped to the full-exclude sentinel is removed, a nested
specification does not remove the key itself; `ValueItems` lives in `utils`,
outside the provided sources). -/
def calculate_keys (values : List (String × Value)) (fields_set : List String)
    (include? : Option (List String)) (exclude? : Option (List (String × Bool)))
    (exclude_unset : Bool) (update? : Option (List String)) :
    Option (List String) :=
  if include?.isNone && exclude?.isNone && !exclude_unset then none
  else
    let keys := if exclude_unset then fields_set else values.map Prod.fst
    let keys := match include? with
      | some inc => keys.filter (fun k => decide (k ∈ inc))
      | none => keys
    let keys := match update? with
      | some u => if u.isEmpty then keys else keys.filter (fun k => decide (k ∉ u))
      | none => keys
    let keys := match exclude? with
      | some ex =>
        if ex.isEmpty then keys
        else keys.filter (fun k =>
          decide (k ∉ (ex.filter (fun kv => kv.2)).map Prod.fst))
      | none => keys
    some keys

/-- The `for field_key, v in self.__dict__.items()` loop of `BaseModel._iter`.
`filters_present` is `value_include or value_exclude` being non-`None`
(a `ValueItems` object is truthy); the narrowing they would apply to nested
values lives outside the provided sources and every claim passes no filters,
so `get_value` receives none. -/
def iterEntries (fields : List (String × FieldInfo)) (to_dict by_alias : Bool)
    (filters_present : Bool) (allowed_keys : Option (List String))
    (exclude_unset exclude_defaults exclude_none : Bool) :
    List (String × Value) → List (String × Value)
  | [] => []
  | (field_key, v) :: rest =>
    let restres := iterEntries fields to_dict by_alias filters_present
      allowed_keys exclude_unset exclude_defaults exclude_none rest
    if allowedSkip allowed_keys field_key || (exclude_none && v.isNone) then
      restres
    else if exclude_defaults && defaultSkip fields field_key v then
      restres
    else
      let dict_key := match dget fields field_key with
        | some mf => if by_alias then mf.alias' else field_key
        | none => field_key
      let v' := if to_dict || filters_present then
          get_value to_dict by_alias exclude_unset exclude_defaults exclude_none v
        else v
      (dict_key, v') :: restres

/-- `BaseModel._iter`. -/
def BaseModel_iter (fields : List (String × FieldInfo)) (inst : Instance)
    (to_dict by_alias : Bool) (include? : Option (List String))
    (exclude? : Option (List (String × Bool)))
    (exclude_unset exclude_defaults exclude_none : Bool) :
    List (String × Value) :=
  let allowed_keys := calculate_keys inst.values inst.fields_set include?
    exclude? exclude_unset none
  if allowed_keys.isNone
      && !(to_dict || by_alias || exclude_unset || exclude_defaults || exclude_none) then
    inst.values
  else
    iterEntries fields to_dict by_alias (include?.isSome || exclude?.isSome)
      allowed_keys exclude_unset exclude_defaults exclude_none inst.values

/-- `BaseModel.dict`: `skip_defaults`, when passed, overrides `exclude_unset`
(after a deprecation warning); then `_iter` with `to_dict=True`. -/
def BaseModel_dict (fields : List (String × FieldInfo)) (inst : Instance)
    (include? : Option (List String)) (exclude? : Option (List (String × Bool)))
    (by_alias : Bool) (skip_defaults : Option Bool)
    (exclude_unset exclude_defaults exclude_none : Bool) :
    List (String × Value) :=
  let exclude_unset := match skip_defaults with
    | some b => b
    | none => exclude_unset
  BaseModel_iter fields inst true by_alias include? exclude?
    exclude_unset exclude_defaults exclude_none

/-- The per-field branch of `BaseModel.construct`'s field loop:
alias-supplied value, else name-supplied value, else declared default for a
non-required field, else nothing. -/
def constructStep (values : List (String × Value))
    (fv : List (String × Value)) (nf : String × FieldInfo) :
    List (String × Value) :=
  let (name, field) := nf
  if field.alt_alias && (dget values field.alias').isSome then
    dset fv name ((dget values field.alias').getD .vnone)
  else if (dget values name).isSome then
    dset fv name ((dget values name).getD .vnone)
  else if !field.required then
    dset fv name field.default
  else fv

/-- `BaseModel.construct(_fields_set, **values)`: builds `fields_values` from
the declared fields in declaration order, overlays the supplied mapping with
`fields_values.update(values)`, and sets `__fields_set__` to the supplied
`_fields_set` or, if `None`, `set(values.keys())`.  (Private attributes are
outside `values` and not modelled.) -/
def BaseModel.construct (fields : List (String × FieldInfo))
    (fields_set? : Option (List String)) (values : List (String × Value)) :
    Instance :=
  let fields_values := fields.foldl (constructStep values) []
  let fields_values := dupdate fields_values values
  { values := fields_values
    fields_set := match fields_set? with
      | some s => s
      | none => values.map Prod.fst }

/-- `Config`: the options `__setattr__` reads. -/
inductive Extra where
  | allow | ignore | forbid
deriving DecidableEq, Repr

structure Config where
  extra : Extra
  allow_mutation : Bool
  frozen : Bool
  validate_assignment : Bool
deriving DecidableEq, Repr

/-- Errors `BaseModel.__setattr__` can raise. -/
inductive SetattrError where
  | value_error_no_field
  | type_error_immutable
  | type_error_final
  | type_error_allow_mutation
  | validation_error
deriving DecidableEq, Repr

/-- Outcome of `BaseModel.__setattr__`: a private/dunder bypass, a raised
error (every `raise` in the source happens before the writes to `__dict__`
and `__fields_set__` at lines 188/190/192, so a raising call leaves the
instance untouched), or a successful assignment with the updated state. -/
inductive SetattrOutcome where
  | privateSet (name : String) (value : Value)
  | error (e : SetattrError)
  | ok (inst : Instance)

def SetattrOutcome.isError : SetattrOutcome → Bool
  | .error _ => true
  | _ => false

/-- The instance state after a `__setattr__` call: updated on success, the
original state otherwise. -/
def afterSetattr (inst : Instance) : SetattrOutcome → Instance
  | .ok i => i
  | _ => inst

/-- `BaseModel.__setattr__(name, value)`.  `validate` stands for
`known_field.validate(value, dict_without_original_value, loc=name, ...)`,
returning the coerced value and an optional error.  The root-validator loops
in the source are commented out, so `errors` stays empty and never raises. -/
def BaseModel.setattr (cfg : Config) (fields : List (String × FieldInfo))
    (private_attributes dunder_attributes : List String)
    (validate : String → Value → List (String × Value) → Value × Option SetattrError)
    (inst : Instance) (name : String) (value : Value) : SetattrOutcome :=
  if name ∈ private_attributes ∨ name ∈ dunder_attributes then
    .privateSet name value
  else if cfg.extra ≠ Extra.allow ∧ (dget fields name).isNone then
    .error .value_error_no_field
  else if !cfg.allow_mutation || cfg.frozen then
    .error .type_error_immutable
  else if ((dget fields name).map (·.final)).getD false then
    .error .type_error_final
  else if cfg.validate_assignment then
    let new_values := dset inst.values name value
    match dget fields name with
    | some known_field =>
      if !known_field.allow_mutation then
        .error .type_error_allow_mutation
      else
        let dict_without_original_value := inst.values.filter (fun kv => kv.1 ≠ name)
        let res := validate name value dict_without_original_value
        match res.2 with
        | some _ => .error .validation_error
        | none =>
          .ok { values := dset new_values name res.1
                fields_set := sadd inst.fields_set name }
    | none =>
      .ok { values := new_values, fields_set := sadd inst.fields_set name }
  else
    .ok { values := dset inst.values name value
          fields_set := sadd inst.fields_set name }

/-! ## Lemmas about `construct` and `__setattr__` -/

/-- What the `construct` field loop binds for a single declared field:
the alias-supplied value, else the name-supplied value, else the declared
default when not required, else nothing. -/
def constructEntry (values : List (String × Value)) (name : String)
    (field : FieldInfo) : Option Value :=
  if field.alt_alias && (dget values field.alias').isSome then
    dget values field.alias'
  else if (dget values name).isSome then
    dget values name
  else if !field.required then
    some field.default
  else none

theorem dget_constructStep (values : List (String × Value))
    (fv : List (String × Value)) (nf : String × FieldInfo) (k : String) :
    dget (constructStep values fv nf) k
      = if nf.1 = k then
          (match constructEntry values nf.1 nf.2 with
           | some v => some v
           | none => dget fv k)
        else dget fv k := by
  obtain ⟨name, field⟩ := nf
  simp only [constructStep, constructEntry]
  by_cases c1 : (field.alt_alias && (dget values field.alias').isSome) = true
  · cases hv : dget values field.alias' with
    | none => rw [hv] at c1; simp at c1
    | some v =>
      have ha : field.alt_alias = true := by
        rcases Bool.and_eq_true_iff.mp c1 with ⟨ha, _⟩
        exact ha
      simp only [ha, if_true, hv, Option.getD_some]
      by_cases h : name = k
      · subst h
        simp [dget_dset_self]
      · simp [h, dget_dset_ne _ _ _ _ h]
  · simp only [c1, if_false, Bool.false_eq_true]
    by_cases c2 : (dget values name).isSome = true
    · cases hn : dget values name with
      | none => rw [hn] at c2; simp at c2
      | some w =>
        simp only [c2, if_true, hn, Option.getD_some]
        by_cases h : name = k
        · subst h
          simp [dget_dset_self]
        · simp [h, dget_dset_ne _ _ _ _ h]
    · simp only [c2, if_false, Bool.false_eq_true]
      by_cases c3 : (!field.required) = true
      · simp only [c3, if_true]
        by_cases h : name = k
        · subst h
          simp [dget_dset_self]
        · simp [h, dget_dset_ne _ _ _ _ h]
      · simp only [c3, if_false, Bool.false_eq_true]
        by_cases h : name = k <;> simp [h]

theorem dget_constructFold_notmem (fields : List (String × FieldInfo))
    (values : List (String × Value)) (acc : List (String × Value)) (k : String) :
    k ∉ fields.map Prod.fst →
      dget (fields.foldl (constructStep values) acc) k = dget acc k := by
  induction fields generalizing acc with
  | nil => intro _; rfl
  | cons nf rest ih =>
    intro hk
    obtain ⟨k0, f0⟩ := nf
    simp only [List.map_cons, List.mem_cons] at hk
    push_neg at hk
    obtain ⟨hk1, hk2⟩ := hk
    simp only [List.foldl_cons]
    rw [ih _ hk2, dget_constructStep]
    exact if_neg (fun h => hk1 h.symm)

theorem dget_constructFold_mem (fields : List (String × FieldInfo))
    (values : List (String × Value)) (acc : List (String × Value)) (k : String)
    (fi : FieldInfo) :
    (fields.map Prod.fst).Nodup → dget fields k = some fi →
      dget (fields.foldl (constructStep values) acc) k
        = (match constructEntry values k fi with
           | some v => some v
           | none => dget acc k) := by
  induction fields generalizing acc with
  | nil => intro _ h; simp [dget] at h
  | cons nf rest ih =>
    intro hnd h
    obtain ⟨k0, f0⟩ := nf
    simp only [List.map_cons, List.nodup_cons] at hnd
    simp only [dget] at h
    simp only [List.foldl_cons]
    by_cases h0 : k0 = k
    · simp only [if_pos h0] at h
      injection h with h
      subst h
      subst h0
      have hrest : k0 ∉ rest.map Prod.fst := hnd.1
      rw [dget_constructFold_notmem rest values _ k0 hrest, dget_constructStep]
      simp
    · simp only [if_neg h0] at h
      rw [ih _ hnd.2 h]
      cases constructEntry values k fi with
      | some v => rfl
      | none =>
        rw [dget_constructStep]
        exact if_neg h0

theorem dget_dupdate_notmem {α : Type} (d m : List (String × α)) (k : String) :
    k ∉ m.map Prod.fst → dget (dupdate d m) k = dget d k := by
  induction m generalizing d with
  | nil => intro _; rfl
  | cons kv rest ih =>
    intro hk
    obtain ⟨k0, v0⟩ := kv
    simp only [List.map_cons, List.mem_cons] at hk
    push_neg at hk
    show dget (dupdate (dset d k0 v0) rest) k = dget d k
    rw [ih _ hk.2, dget_dset_ne _ _ _ _ (Ne.symm hk.1)]

theorem dget_dupdate_mem {α : Type} (d m : List (String × α)) (k : String) :
    (m.map Prod.fst).Nodup → k ∈ m.map Prod.fst →
      dget (dupdate d m) k = dget m k := by
  induction m generalizing d with
  | nil => intro _ hk; simp at hk
  | cons kv rest ih =>
    intro hnd hk
    obtain ⟨k0, v0⟩ := kv
    simp only [List.map_cons, List.nodup_cons] at hnd
    show dget (dupdate (dset d k0 v0) rest) k = _
    by_cases h0 : k0 = k
    · subst h0
      rw [dget_dupdate_notmem _ _ _ hnd.1, dget_dset_self]
      simp [dget]
    · simp only [List.map_cons, List.mem_cons] at hk
      rcases hk with hk | hk
      · exact absurd hk.symm h0
      · rw [ih _ hnd.2 hk]
        simp [dget, h0]

/-! ## Claim theorems for `construct` and `__setattr__` -/

/-- **C7**: for an instance whose field is declared `final` and already has a
`fields_set` entry, every assignment through `__setattr__` raises (whatever
the config: the immutability guard or the `final` guard fires first), and the
instance's `values` and `fields_set` afterwards equal their pre-call state. -/
theorem final_field_assignment_fails (cfg : Config)
    (fields : List (String × FieldInfo))
    (private_attributes dunder_attributes : List String)
    (validate : String → Value → List (String × Value) → Value × Option SetattrError)
    (inst : Instance) (name : String) (value : Value) (fi : FieldInfo)
    (hpriv : name ∉ private_attributes) (hdund : name ∉ dunder_attributes)
    (hfi : dget fields name = some fi) (hfinal : fi.final = true)
    (hset : name ∈ inst.fields_set) :
    (BaseModel.setattr cfg fields private_attributes dunder_attributes validate
      inst name value).isError = true
    ∧ afterSetattr inst (BaseModel.setattr cfg fields private_attributes
        dunder_attributes validate inst name value) = inst := by
  have h1 : ¬(name ∈ private_attributes ∨ name ∈ dunder_attributes) := by
    rintro (h | h)
    · exact hpriv h
    · exact hdund h
  have h2 : ¬(cfg.extra ≠ Extra.allow ∧ (dget fields name).isNone = true) := by
    rintro ⟨-, hn⟩
    rw [hfi] at hn
    simp at hn
  by_cases h3 : (!cfg.allow_mutation || cfg.frozen) = true
  · simp only [BaseModel.setattr, if_neg h1, if_neg h2, if_pos h3]
    exact ⟨rfl, rfl⟩
  · have h4 : (((dget fields name).map (·.final)).getD false) = true := by
      rw [hfi]
      simpa using hfinal
    simp only [BaseModel.setattr, if_neg h1, if_neg h2, if_neg h3, if_pos h4]
    exact ⟨rfl, rfl⟩

def c7Config : Config := ⟨Extra.allow, true, false, false⟩

def c7FieldInfo : FieldInfo := ⟨"f", false, true, Value.vnone, true, true⟩

def c7Fields : List (String × FieldInfo) := [("f", c7FieldInfo)]

def c7Instance : Instance := ⟨[("f", Value.vint 1)], ["f"]⟩

def c7Validate : String → Value → List (String × Value) → Value × Option SetattrError :=
  fun _ v _ => (v, none)

/-- Witness for C7 at a concrete mutable, non-frozen schema with a final
field that is already set. -/
theorem final_field_assignment_fails_witness :
    (BaseModel.setattr c7Config c7Fields [] [] c7Validate c7Instance "f"
      (Value.vint 2)).isError = true
    ∧ afterSetattr c7Instance (BaseModel.setattr c7Config c7Fields [] []
        c7Validate c7Instance "f" (Value.vint 2)) = c7Instance :=
  final_field_assignment_fails c7Config c7Fields [] [] c7Validate c7Instance
    "f" (Value.vint 2) c7FieldInfo (by decide) (by decide) rfl rfl (by decide)

/-- **C8**: `construct` with no explicit `_fields_set` sets `fields_set` to
exactly the supplied keys; every non-required declared field absent from the
supplied mapping (under its name, and under its alias when it has a distinct
one) is bound to its declared default; and every supplied entry — declared
field or not — is present with its supplied value, taking precedence. -/
theorem construct_fields_set_and_defaults (fields : List (String × FieldInfo))
    (values : List (String × Value)) (name : String) (fi : FieldInfo)
    (hndf : (fields.map Prod.fst).Nodup)
    (hndv : (values.map Prod.fst).Nodup)
    (hfi : dget fields name = some fi)
    (hreq : fi.required = false)
    (hname : dget values name = none)
    (halias : fi.alt_alias = false ∨ dget values fi.alias' = none) :
    (BaseModel.construct fields none values).fields_set = values.map Prod.fst
    ∧ dget (BaseModel.construct fields none values).values name = some fi.default
    ∧ ∀ k, k ∈ values.map Prod.fst →
        dget (BaseModel.construct fields none values).values k = dget values k := by
  refine ⟨rfl, ?_, ?_⟩
  · show dget (dupdate (fields.foldl (constructStep values) []) values) name
      = some fi.default
    rw [dget_dupdate_notmem _ _ _ ((dget_eq_none_iff values name).mp hname),
      dget_constructFold_mem fields values [] name fi hndf hfi]
    have hce : constructEntry values name fi = some fi.default := by
      unfold constructEntry
      have hc1 : (fi.alt_alias && (dget values fi.alias').isSome) = false := by
        rcases halias with h | h <;> simp [h]
      rw [hc1]
      simp [hname, hreq]
    rw [hce]
  · intro k hk
    show dget (dupdate (fields.foldl (constructStep values) []) values) k
      = dget values k
    exact dget_dupdate_mem _ _ _ hndv hk

def c8Fields : List (String × FieldInfo) :=
  [("name", ⟨"name", false, true, Value.vnone, false, true⟩),
   ("age", ⟨"age", false, false, Value.vint 0, false, true⟩)]

def c8Values : List (String × Value) := [("x", Value.vint 5), ("name", Value.vstr "A")]

/-- Witness for C8: `construct({'x': 5, 'name': 'A'})` on a schema with a
required `name` and an `age` defaulting to `0`. -/
theorem construct_fields_set_and_defaults_witness :
    (BaseModel.construct c8Fields none c8Values).fields_set = ["x", "name"]
    ∧ dget (BaseModel.construct c8Fields none c8Values).values "age"
        = some (Value.vint 0)
    ∧ dget (BaseModel.construct c8Fields none c8Values).values "x"
        = dget c8Values "x" :=
  ⟨(construct_fields_set_and_defaults c8Fields c8Values "age"
      ⟨"age", false, false, Value.vint 0, false, true⟩
      (by decide) (by decide) rfl rfl rfl (Or.inl rfl)).1,
   (construct_fields_set_and_defaults c8Fields c8Values "age"
      ⟨"age", false, false, Value.vint 0, false, true⟩
      (by decide) (by decide) rfl rfl rfl (Or.inl rfl)).2.1,
   (construct_fields_set_and_defaults c8Fields c8Values "age"
      ⟨"age", false, false, Value.vint 0, false, true⟩
      (by decide) (by decide) rfl rfl rfl (Or.inl rfl)).2.2 "x" (by decide)⟩

/-- **C10**: `construct` given a value under a field's (distinct) alias key
binds that value under both the field's name and the alias key, and the
defaulted `fields_set` contains the alias key but not the field's name. -/
theorem construct_alias_values (fields : List (String × FieldInfo))
    (values : List (String × Value)) (name : String) (fi : FieldInfo) (v : Value)
    (hndf : (fields.map Prod.fst).Nodup)
    (hndv : (values.map Prod.fst).Nodup)
    (hfi : dget fields name = some fi)
    (halt : fi.alt_alias = true)
    (hdiff : fi.alias' ≠ name)
    (hsup : dget values fi.alias' = some v)
    (hname : dget values name = none) :
    dget (BaseModel.construct fields none values).values name = some v
    ∧ dget (BaseModel.construct fields none values).values fi.alias' = some v
    ∧ fi.alias' ∈ (BaseModel.construct fields none values).fields_set
    ∧ name ∉ (BaseModel.construct fields none values).fields_set := by
  have hmem : fi.alias' ∈ values.map Prod.fst := by
    by_contra hm
    rw [← dget_eq_none_iff values fi.alias'] at hm
    rw [hm] at hsup
    exact Option.noConfusion hsup
  refine ⟨?_, ?_, hmem, (dget_eq_none_iff values name).mp hname⟩
  · show dget (dupdate (fields.foldl (constructStep values) []) values) name = some v
    rw [dget_dupdate_notmem _ _ _ ((dget_eq_none_iff values name).mp hname),
      dget_constructFold_mem fields values [] name fi hndf hfi]
    have hce : constructEntry values name fi = some v := by
      unfold constructEntry
      simp [halt, hsup]
    rw [hce]
  · show dget (dupdate (fields.foldl (constructStep values) []) values) fi.alias'
      = some v
    rw [dget_dupdate_mem _ _ _ hndv hmem]
    exact hsup

def c10Fields : List (String × FieldInfo) :=
  [("name", ⟨"nick", true, true, Value.vnone, false, true⟩)]

def c10Values : List (String × Value) := [("nick", Value.vstr "B")]

/-- Witness for C10: a field `name` aliased `nick`, supplied under `nick`. -/
theorem construct_alias_values_witness :
    dget (BaseModel.construct c10Fields none c10Values).values "name"
      = some (Value.vstr "B")
    ∧ dget (BaseModel.construct c10Fields none c10Values).values "nick"
      = some (Value.vstr "B")
    ∧ "nick" ∈ (BaseModel.construct c10Fields none c10Values).fields_set
    ∧ "name" ∉ (BaseModel.construct c10Fields none c10Values).fields_set :=
  construct_alias_values c10Fields c10Values "name"
    ⟨"nick", true, true, Value.vnone, false, true⟩ (Value.vstr "B")
    (by decide) (by decide) rfl rfl (by decide) rfl rfl

/-! ## Claim theorems for projection -/

theorem dget_some_mem {α : Type} (d : List (String × α)) (k : String) (v : α) :
    dget d k = some v → (k, v) ∈ d := by
  induction d with
  | nil => intro h; simp [dget] at h
  | cons kv rest ih =>
    intro h
    obtain ⟨k0, v0⟩ := kv
    simp only [dget] at h
    by_cases h0 : k0 = k
    · simp only [if_pos h0] at h
      injection h with h
      subst h0
      subst h
      exact List.mem_cons_self _ _
    · simp only [if_neg h0] at h
      exact List.mem_cons_of_mem _ (ih h)

/-- The `exclude_defaults` branch of `_iter` as the program actually
executes it.  The test `not getattr(model_field, 'required', True) and
getattr(model_field, 'default', _missing) == v` short-circuits harmlessly
when the field is undeclared or required, but for a declared non-required
field the second conjunct is evaluated, and `getattr`'s eagerly-evaluated
fallback argument `_missing` is an unbound name in the provided source
(`main.py:643`, defined nowhere and not imported), so the lookup raises
`NameError` before any attribute access or comparison.  `.error ()` models
that raise; `.ok ()` means the entry is not skipped (a skip would need the
test to evaluate to `True`, which is unreachable). -/
def defaultSkipExc (fields : List (String × FieldInfo)) (k : String) :
    Except Unit Unit :=
  match dget fields k with
  | some mf => if !mf.required then .error () else .ok ()
  | none => .ok ()

/-- The `_iter` loop with the faithful, fallible `exclude_defaults`
semantics (`defaultSkipExc`).  `dict(self._iter(...))` forces the whole
generator, so a raise at any reached entry makes the whole projection call
raise.  Nested values still go through `get_value`, whose nested model
recursion runs against the empty nested field table (see the note on
`get_value`), under which the nested `exclude_defaults` lookup finds no
descriptor and never raises. -/
def iterEntriesExc (fields : List (String × FieldInfo)) (to_dict by_alias : Bool)
    (filters_present : Bool) (allowed_keys : Option (List String))
    (exclude_unset exclude_defaults exclude_none : Bool) :
    List (String × Value) → Except Unit (List (String × Value))
  | [] => .ok []
  | (field_key, v) :: rest =>
    if allowedSkip allowed_keys field_key || (exclude_none && v.isNone) then
      iterEntriesExc fields to_dict by_alias filters_present allowed_keys
        exclude_unset exclude_defaults exclude_none rest
    else
      match (if exclude_defaults then defaultSkipExc fields field_key
             else .ok ()) with
      | .error e => .error e
      | .ok _ =>
        let dict_key := match dget fields field_key with
          | some mf => if by_alias then mf.alias' else field_key
          | none => field_key
        let v' := if to_dict || filters_present then
            get_value to_dict by_alias exclude_unset exclude_defaults
              exclude_none v
          else v
        match iterEntriesExc fields to_dict by_alias filters_present
            allowed_keys exclude_unset exclude_defaults exclude_none rest with
        | .error e => .error e
        | .ok restres => .ok ((dict_key, v') :: restres)

/-- `BaseModel._iter` with the fallible `exclude_defaults` semantics. -/
def BaseModel_iter_exc (fields : List (String × FieldInfo)) (inst : Instance)
    (to_dict by_alias : Bool) (include? : Option (List String))
    (exclude? : Option (List (String × Bool)))
    (exclude_unset exclude_defaults exclude_none : Bool) :
    Except Unit (List (String × Value)) :=
  let allowed_keys := calculate_keys inst.values inst.fields_set include?
    exclude? exclude_unset none
  if allowed_keys.isNone
      && !(to_dict || by_alias || exclude_unset || exclude_defaults || exclude_none) then
    .ok inst.values
  else
    iterEntriesExc fields to_dict by_alias (include?.isSome || exclude?.isSome)
      allowed_keys exclude_unset exclude_defaults exclude_none inst.values

/-- `BaseModel.dict` with the fallible `exclude_defaults` semantics. -/
def BaseModel_dict_exc (fields : List (String × FieldInfo)) (inst : Instance)
    (include? : Option (List String)) (exclude? : Option (List (String × Bool)))
    (by_alias : Bool) (skip_defaults : Option Bool)
    (exclude_unset exclude_defaults exclude_none : Bool) :
    Except Unit (List (String × Value)) :=
  let exclude_unset := match skip_defaults with
    | some b => b
    | none => exclude_unset
  BaseModel_iter_exc fields inst true by_alias include? exclude?
    exclude_unset exclude_defaults exclude_none

/-- Without `exclude_defaults`, the raising branch is dead and the fallible
loop computes exactly the total one: the total `iterEntries` (hence
`BaseModel_iter`/`BaseModel_dict`) is the faithful fragment of the program. -/
theorem iterEntriesExc_no_exclude_defaults (fields : List (String × FieldInfo))
    (to_dict by_alias filters_present : Bool) (allowed_keys : Option (List String))
    (exclude_unset exclude_none : Bool) (l : List (String × Value)) :
    iterEntriesExc fields to_dict by_alias filters_present allowed_keys
      exclude_unset false exclude_none l
      = .ok (iterEntries fields to_dict by_alias filters_present allowed_keys
          exclude_unset false exclude_none l) := by
  induction l with
  | nil => rfl
  | cons kv rest ih =>
    obtain ⟨field_key, v⟩ := kv
    simp only [iterEntriesExc, iterEntries, Bool.false_and, if_false,
      Bool.false_eq_true, ih]
    by_cases hs : (allowedSkip allowed_keys field_key || (exclude_none && v.isNone)) = true
    · simp [hs, ih]
    · simp [hs, ih]

/-- `BaseModel._iter` and its fallible version agree when
`exclude_defaults=false`. -/
theorem BaseModel_iter_exc_no_exclude_defaults (fields : List (String × FieldInfo))
    (inst : Instance) (to_dict by_alias : Bool) (include? : Option (List String))
    (exclude? : Option (List (String × Bool))) (exclude_unset exclude_none : Bool) :
    BaseModel_iter_exc fields inst to_dict by_alias include? exclude?
      exclude_unset false exclude_none
      = .ok (BaseModel_iter fields inst to_dict by_alias include? exclude?
          exclude_unset false exclude_none) := by
  by_cases h : ((calculate_keys inst.values inst.fields_set include? exclude?
      exclude_unset none).isNone
      && !(to_dict || by_alias || exclude_unset || false || exclude_none)) = true
  · simp only [BaseModel_iter_exc, BaseModel_iter]
    rw [if_pos h, if_pos h]
  · simp only [BaseModel_iter_exc, BaseModel_iter]
    rw [if_neg h, if_neg h, iterEntriesExc_no_exclude_defaults]

def c4Fields : List (String × FieldInfo) :=
  [("name", ⟨"name", false, true, Value.vnone, false, true⟩),
   ("age", ⟨"age", false, false, Value.vint 0, false, true⟩)]

def c4Instance : Instance := BaseModel.construct c4Fields none [("name", Value.vstr "A")]

/-- **C4** fails on the code: with `exclude_defaults=True`, evaluating the
skip test for any declared non-required field looks up the unbound name
`_missing` (`main.py:643`) and raises `NameError`.  At the claim's own
example — required string `name`, integer `age` defaulting to `0`, instance
constructed from `{"name": "A"}` (values `{"name": "A", "age": 0}`,
fields_set `{"name"}`) — the projection raises at `age` instead of producing
`{"name": "A"}`; `name`, being required, short-circuits harmlessly, and the
same call without `exclude_defaults` completes normally. -/
theorem project_exclude_defaults_raises :
    BaseModel_dict_exc c4Fields c4Instance none none false none false true false
      = .error ()
    ∧ defaultSkipExc c4Fields "age" = .error ()
    ∧ defaultSkipExc c4Fields "name" = .ok ()
    ∧ c4Instance.values = [("name", Value.vstr "A"), ("age", Value.vint 0)]
    ∧ c4Instance.fields_set = ["name"]
    ∧ BaseModel_dict_exc c4Fields c4Instance none none false none false false
        false = .ok [("name", Value.vstr "A"), ("age", Value.vint 0)] :=
  ⟨rfl, rfl, rfl, rfl, rfl, rfl⟩

theorem mem_filter_subset {l : List String} {p : String → Bool} {k : String}
    (h : k ∈ l.filter p) : k ∈ l := (List.mem_filter.mp h).1

/-- With `exclude_unset=True`, `_calculate_keys` starts from a copy of
`__fields_set__` and only intersects/subtracts, so the allowed set it returns
is contained in `fields_set`. -/
theorem calculate_keys_exclude_unset_subset (values : List (String × Value))
    (fields_set : List String) (include? : Option (List String))
    (exclude? : Option (List (String × Bool))) (update? : Option (List String))
    (ks : List String)
    (h : calculate_keys values fields_set include? exclude? true update? = some ks) :
    ∀ k, k ∈ ks → k ∈ fields_set := by
  intro k hk
  simp only [calculate_keys, Bool.not_true, Bool.and_false, Bool.false_eq_true,
    if_false, if_true] at h
  repeat' split at h
  all_goals
    injection h with h
  all_goals
    subst h
  all_goals
    first
    | exact hk
    | exact mem_filter_subset hk
    | exact mem_filter_subset (mem_filter_subset hk)
    | exact mem_filter_subset (mem_filter_subset (mem_filter_subset hk))

/-- Every key the `_iter` loop emits with `by_alias=False` and a non-`None`
allowed set is a member of that allowed set. -/
theorem iterEntries_keys_allowed (fields : List (String × FieldInfo))
    (to_dict filters_present : Bool) (allowed : List String)
    (exclude_unset exclude_defaults exclude_none : Bool)
    (l : List (String × Value)) (k : String)
    (hk : k ∈ (iterEntries fields to_dict false filters_present (some allowed)
      exclude_unset exclude_defaults exclude_none l).map Prod.fst) :
    k ∈ allowed := by
  induction l with
  | nil => simp [iterEntries] at hk
  | cons kv rest ih =>
    obtain ⟨k0, v⟩ := kv
    simp only [iterEntries] at hk
    by_cases hs1 : (allowedSkip (some allowed) k0 || (exclude_none && v.isNone)) = true
    · rw [if_pos hs1] at hk
      exact ih hk
    · rw [if_neg hs1] at hk
      by_cases hs2 : (exclude_defaults && defaultSkip fields k0 v) = true
      · rw [if_pos hs2] at hk
        exact ih hk
      · rw [if_neg hs2] at hk
        have hmem : k0 ∈ allowed := by
          have : allowedSkip (some allowed) k0 = false := by
            rcases Bool.or_eq_false_iff.mp (Bool.eq_false_iff.mpr hs1) with ⟨ha, -⟩
            exact ha
          simpa [allowedSkip] using this
        have hdk : (match dget fields k0 with
            | some mf => if false = true then mf.alias' else k0
            | none => k0) = k0 := by
          cases dget fields k0 <;> simp
        rw [List.map_cons] at hk
        rcases List.mem_cons.mp hk with hke | hke
        · rw [show ((match dget fields k0 with
            | some mf => if false = true then mf.alias' else k0
            | none => k0, if (to_dict || filters_present) = true then
                get_value to_dict false exclude_unset exclude_defaults exclude_none v
              else v) : String × Value).1 = k0 from by
              cases dget fields k0 <;> simp] at hke
          exact hke ▸ hmem
        · exact ih hke

/-- **C9**: with `exclude_unset=True` and `by_alias=False`, every key emitted
by `_iter` — for any instance state (hence after any prior sequence of
mutations), any include/exclude filters and any other flags — is a member of
the instance's `fields_set`. -/
theorem exclude_unset_keys_subset_fields_set (fields : List (String × FieldInfo))
    (inst : Instance) (include? : Option (List String))
    (exclude? : Option (List (String × Bool)))
    (to_dict exclude_defaults exclude_none : Bool) (k : String)
    (hk : k ∈ (BaseModel_iter fields inst to_dict false include? exclude? true
      exclude_defaults exclude_none).map Prod.fst) :
    k ∈ inst.fields_set := by
  obtain ⟨ks, hks⟩ : ∃ ks, calculate_keys inst.values inst.fields_set include?
      exclude? true none = some ks := by
    simp only [calculate_keys, Bool.not_true, Bool.and_false,
      Bool.false_eq_true, if_false, if_true]
    exact ⟨_, rfl⟩
  have hiter : BaseModel_iter fields inst to_dict false include? exclude? true
      exclude_defaults exclude_none
      = iterEntries fields to_dict false (include?.isSome || exclude?.isSome)
          (some ks) true exclude_defaults exclude_none inst.values := by
    unfold BaseModel_iter
    rw [hks]
    simp
  rw [hiter] at hk
  exact calculate_keys_exclude_unset_subset inst.values inst.fields_set include?
    exclude? none ks hks k
    (iterEntries_keys_allowed fields to_dict (include?.isSome || exclude?.isSome)
      ks true exclude_defaults exclude_none inst.values k hk)

def c9Instance : Instance := ⟨[("a", Value.vint 1), ("b", Value.vint 2)], ["a"]⟩

/-- Witness for C9: an instance with `b` left unset projects only `a`. -/
theorem exclude_unset_keys_subset_fields_set_witness :
    "a" ∈ (BaseModel_iter [] c9Instance true false none none true false
      false).map Prod.fst
    ∧ "a" ∈ c9Instance.fields_set :=
  ⟨by decide,
   exclude_unset_keys_subset_fields_set [] c9Instance none none true false
     false "a" (by decide)⟩

/-! ## Claim C5: construct/project round trip -/

mutual
/-- Plain data: no nested model instance anywhere inside the value. -/
def Value.isPlain : Value → Bool
  | .vmodel _ _ => false
  | .vdict kvs => plainEntries kvs
  | .vlist vs => plainList vs
  | _ => true

def plainList : List Value → Bool
  | [] => true
  | v :: vs => Value.isPlain v && plainList vs

def plainEntries : List (String × Value) → Bool
  | [] => true
  | (_, v) :: kvs => Value.isPlain v && plainEntries kvs
end

mutual
/-- `_get_value` is the identity on plain data (with no filters, the dict and
sequence branches rebuild the same entries and the scalar branch returns the
value unchanged), whatever the flags. -/
theorem get_value_plain (td ba eu ed en : Bool) :
    ∀ v, Value.isPlain v = true → get_value td ba eu ed en v = v
  | .vint _, _ => rfl
  | .vstr _, _ => rfl
  | .vbool _, _ => rfl
  | .vnone, _ => rfl
  | .vlist vs, h => by
    have h' : plainList vs = true := by simpa [Value.isPlain] using h
    simp only [get_value, get_value_list_plain td ba eu ed en vs h']
  | .vdict kvs, h => by
    have h' : plainEntries kvs = true := by simpa [Value.isPlain] using h
    simp only [get_value, get_value_entries_plain td ba eu ed en kvs h']
  | .vmodel _ _, h => by simp [Value.isPlain] at h

theorem get_value_list_plain (td ba eu ed en : Bool) :
    ∀ vs, plainList vs = true → get_value_list td ba eu ed en vs = vs
  | [], _ => rfl
  | v :: vs, h => by
    have h1 : Value.isPlain v = true ∧ plainList vs = true := by
      simpa [plainList, Bool.and_eq_true_iff] using h
    simp only [get_value_list, get_value_plain td ba eu ed en v h1.1,
      get_value_list_plain td ba eu ed en vs h1.2]

theorem get_value_entries_plain (td ba eu ed en : Bool) :
    ∀ kvs, plainEntries kvs = true → get_value_entries td ba eu ed en kvs = kvs
  | [], _ => rfl
  | (k, v) :: kvs, h => by
    have h1 : Value.isPlain v = true ∧ plainEntries kvs = true := by
      simpa [plainEntries, Bool.and_eq_true_iff] using h
    simp only [get_value_entries, get_value_plain td ba eu ed en v h1.1,
      get_value_entries_plain td ba eu ed en kvs h1.2]
end

/-- With no filters and all exclusion flags off, the `_iter` loop with
`to_dict=True` reproduces `__dict__` when every stored value is plain. -/
theorem iterEntries_plain (fields : List (String × FieldInfo))
    (l : List (String × Value)) (hp : ∀ kv ∈ l, Value.isPlain kv.2 = true) :
    iterEntries fields true false false none false false false l = l := by
  induction l with
  | nil => rfl
  | cons kv rest ih =>
    obtain ⟨k, v⟩ := kv
    have hv : Value.isPlain v = true := hp (k, v) (List.mem_cons_self _ _)
    have hrest := ih (fun kv hkv => hp kv (List.mem_cons_of_mem _ hkv))
    simp only [iterEntries, allowedSkip, Bool.false_and, Bool.or_false,
      Bool.or_self, if_false, Bool.false_eq_true, hrest]
    cases hf : dget fields k with
    | some mf => simp [get_value_plain _ _ _ _ _ v hv]
    | none => simp [get_value_plain _ _ _ _ _ v hv]

/-- The full projection (`to_data=True`, no filters, no exclusions) of an
instance whose values are plain is its `__dict__`. -/
theorem dict_full_plain (fields : List (String × FieldInfo)) (x : Instance)
    (hplain : ∀ kv ∈ x.values, Value.isPlain kv.2 = true) :
    BaseModel_dict fields x none none false none false false false = x.values := by
  show iterEntries fields true false false none false false false x.values
    = x.values
  exact iterEntries_plain fields x.values hplain

def c5Fields : List (String × FieldInfo) :=
  [("a", ⟨"a", false, true, Value.vnone, false, true⟩)]

def c5Instance : Instance :=
  ⟨[("a", Value.vmodel [("b", Value.vint 1)] ["b"])], ["a"]⟩

/-- **C5** fails on the code as stated for arbitrary instances: for an
instance whose field `a` (set in `fields_set`, so not ignorable) holds a
nested model, the full projection turns the nested instance into a plain
mapping, and `construct` stores that mapping as-is, so the reconstructed
`values` differ from the original at `a`. -/
theorem construct_project_roundtrip_cex :
    dget (BaseModel.construct c5Fields none
        (BaseModel_dict c5Fields c5Instance none none false none false false
          false)).values "a"
      = some (Value.vdict [("b", Value.vint 1)])
    ∧ dget c5Instance.values "a"
      = some (Value.vmodel [("b", Value.vint 1)] ["b"])
    ∧ "a" ∈ c5Instance.fields_set
    ∧ Value.vdict [("b", Value.vint 1)]
      ≠ Value.vmodel [("b", Value.vint 1)] ["b"] := by
  refine ⟨rfl, rfl, List.mem_cons_self _ _, ?_⟩
  intro h
  exact Value.noConfusion h

/-- **C5**, amended: for instances whose values are plain data (no nested
model anywhere — the counterexample shows a nested model breaks the round
trip because projection flattens it to a mapping) and whose distinct field
aliases do not occur as keys of `values` (aliases are external names; stored
keys are field names), `construct` applied to the full projection agrees with
the original `values` on every key present, and any additional key is a
non-required declared field unset in the original, bound to its declared
default. -/
theorem construct_project_roundtrip_plain (fields : List (String × FieldInfo))
    (x : Instance)
    (hplain : ∀ kv ∈ x.values, Value.isPlain kv.2 = true)
    (hndx : (x.values.map Prod.fst).Nodup)
    (hndf : (fields.map Prod.fst).Nodup)
    (halias : ∀ nf ∈ fields, (nf.2 : FieldInfo).alt_alias = true →
      dget x.values (nf.2 : FieldInfo).alias' = none) :
    (∀ k, k ∈ x.values.map Prod.fst →
      dget (BaseModel.construct fields none
        (BaseModel_dict fields x none none false none false false
          false)).values k = dget x.values k)
    ∧ (∀ k, k ∈ (BaseModel.construct fields none
          (BaseModel_dict fields x none none false none false false
            false)).values.map Prod.fst →
        k ∉ x.values.map Prod.fst →
        ∃ fi, dget fields k = some fi ∧ fi.required = false
          ∧ dget (BaseModel.construct fields none
              (BaseModel_dict fields x none none false none false false
                false)).values k = some fi.default) := by
  rw [dict_full_plain fields x hplain]
  constructor
  · intro k hk
    show dget (dupdate (fields.foldl (constructStep x.values) []) x.values) k
      = dget x.values k
    exact dget_dupdate_mem _ _ _ hndx hk
  · intro k hky hkx
    have h1 : dget (dupdate (fields.foldl (constructStep x.values) [])
        x.values) k ≠ none := by
      intro hn
      exact (dget_eq_none_iff _ k).mp hn hky
    rw [dget_dupdate_notmem _ _ _ hkx] at h1
    have h4 : k ∈ fields.map Prod.fst := by
      by_contra hnf
      apply h1
      rw [dget_constructFold_notmem fields x.values [] k hnf]
      rfl
    obtain ⟨fi, hfi⟩ : ∃ fi, dget fields k = some fi := by
      cases hf : dget fields k with
      | none => exact absurd ((dget_eq_none_iff fields k).mp hf) (by simpa using h4)
      | some fi => exact ⟨fi, rfl⟩
    have hfold : dget (fields.foldl (constructStep x.values) []) k
        = (match constructEntry x.values k fi with
           | some v => some v
           | none => none) := by
      rw [dget_constructFold_mem fields x.values [] k fi hndf hfi]
      cases constructEntry x.values k fi <;> rfl
    have hc1 : (fi.alt_alias && (dget x.values fi.alias').isSome) = false := by
      by_cases ha : fi.alt_alias = true
      · have := halias (k, fi) (dget_some_mem fields k fi hfi) ha
        simp [ha, this]
      · simp only [Bool.not_eq_true] at ha
        simp [ha]
    have hc2 : (dget x.values k).isSome = false := by
      rw [(dget_eq_none_iff x.values k).mpr hkx]
      rfl
    cases hr : fi.required with
    | true =>
      exfalso
      apply h1
      rw [hfold]
      have : constructEntry x.values k fi = none := by
        unfold constructEntry
        rw [hc1, hc2, hr]
        simp
      rw [this]
    | false =>
      refine ⟨fi, hfi, hr, ?_⟩
      show dget (dupdate (fields.foldl (constructStep x.values) []) x.values) k
        = some fi.default
      rw [dget_dupdate_notmem _ _ _ hkx, hfold]
      have : constructEntry x.values k fi = some fi.default := by
        unfold constructEntry
        rw [hc1, hc2, hr]
        simp
      rw [this]

def c5PlainInstance : Instance := ⟨[("name", Value.vstr "A")], ["name"]⟩

/-- Witness for the amended C5 at the example schema: a plain instance
round-trips, and the one extra key is the unset defaulted `age`. -/
theorem construct_project_roundtrip_plain_witness :
    dget (BaseModel.construct c4Fields none
        (BaseModel_dict c4Fields c5PlainInstance none none false none false
          false false)).values "name" = dget c5PlainInstance.values "name"
    ∧ ∃ fi, dget c4Fields "age" = some fi ∧ fi.required = false
        ∧ dget (BaseModel.construct c4Fields none
            (BaseModel_dict c4Fields c5PlainInstance none none false none false
              false false)).values "age" = some fi.default :=
  ⟨(construct_project_roundtrip_plain c4Fields c5PlainInstance
      (by decide) (by decide) (by decide)
      (by
        rintro nf hnf ha
        simp only [c4Fields, List.mem_cons, List.not_mem_nil, or_false] at hnf
        rcases hnf with rfl | rfl <;> simp at ha)).1
    "name" (by decide),
   (construct_project_roundtrip_plain c4Fields c5PlainInstance
      (by decide) (by decide) (by decide)
      (by
        rintro nf hnf ha
        simp only [c4Fields, List.mem_cons, List.not_mem_nil, or_false] at hnf
        rcases hnf with rfl | rfl <;> simp at ha)).2
    "age" (by decide) (by decide)⟩
